import Mathlib

/-!
Shallow embedding of the spring-boot-doc-parser crawler (the scraper
module and `progress-utils.js`).

Strings are modelled as lists of characters (`Str`), DOM trees as the
inductive `Elem`, and the promise-based batch pipeline of `main` as a
sequential fold over batches: within one batch every task settles exactly
once, and the verified claims do not depend on the interleaving of
settlements inside a batch.  Thrown exceptions are modelled by `Option`
(inside the extraction) and `Except` (at the function boundaries that
`catch` and rethrow).
-/

set_option linter.unusedVariables false

abbrev Str := List Char

def str (s : String) : Str := s.toList

/-- JavaScript truthiness of a string (`if (data.href)`): the empty string
is falsy, every other string is truthy. -/
def strTruthy (s : Str) : Bool := !s.isEmpty

/-- Whitespace stripped by `String.prototype.trim`. -/
def isJsSpace (c : Char) : Bool := c == ' ' || c == '\t' || c == '\n' || c == '\r'

/-- `String.prototype.trim`: strip whitespace from both ends. -/
def jsTrim (s : Str) : Str := ((s.dropWhile isJsSpace).reverse.dropWhile isJsSpace).reverse

/-- A DOM element: tag name, `id` attribute, class list, optional
`data-depth` attribute, the element's own text, the `href` attribute
(meaningful on anchors), and child elements in document order.  A parsed
document is represented by its document node, whose descendants are the
document's elements. -/
inductive Elem where
  | mk (tag : Str) (idAttr : Str) (classes : List Str) (depthAttr : Option Nat)
      (text : Str) (href : Str) (children : List Elem)

def Elem.tag : Elem → Str
  | .mk t _ _ _ _ _ _ => t

def Elem.idAttr : Elem → Str
  | .mk _ i _ _ _ _ _ => i

def Elem.classes : Elem → List Str
  | .mk _ _ c _ _ _ _ => c

def Elem.depthAttr : Elem → Option Nat
  | .mk _ _ _ d _ _ _ => d

def Elem.text : Elem → Str
  | .mk _ _ _ _ tx _ _ => tx

def Elem.href : Elem → Str
  | .mk _ _ _ _ _ h _ => h

def Elem.children : Elem → List Elem
  | .mk _ _ _ _ _ _ ch => ch

mutual
/-- Number of elements in the subtree rooted at `e` (including `e`). -/
def sizeE : Elem → Nat
  | .mk _ _ _ _ _ _ ch => 1 + sizeL ch
def sizeL : List Elem → Nat
  | [] => 0
  | c :: cs => sizeE c + sizeL cs
end

mutual
/-- `element.querySelector` for a simple (single-compound) selector given
as a predicate: first matching descendant in document order, the element
itself excluded. -/
def querySelectorD (p : Elem → Bool) : Elem → Option Elem
  | .mk _ _ _ _ _ _ ch => querySelectorL p ch
def querySelectorL (p : Elem → Bool) : List Elem → Option Elem
  | [] => none
  | c :: cs =>
    if p c then some c
    else
      match querySelectorD p c with
      | some x => some x
      | none => querySelectorL p cs
end

mutual
/-- `Node.textContent`: all text in the subtree, in document order. -/
def textContent : Elem → Str
  | .mk _ _ _ _ tx _ ch => tx ++ textContentL ch
def textContentL : List Elem → Str
  | [] => []
  | c :: cs => textContent c ++ textContentL cs
end

mutual
/-- Serialization of an element (used for `innerHTML`; its exact shape is
opaque to every claim). -/
def outerHTML : Elem → Str
  | .mk tg _ _ _ tx _ ch =>
    '<' :: tg ++ ['>'] ++ tx ++ outerHTMLL ch ++ ('<' :: '/' :: tg) ++ ['>']
def outerHTMLL : List Elem → Str
  | [] => []
  | c :: cs => outerHTML c ++ outerHTMLL cs
end

/-- `Element.innerHTML`: the serialized content of the element. -/
def innerHTML (e : Elem) : Str := e.text ++ outerHTMLL e.children

def isNavList (e : Elem) : Bool :=
  e.tag == str "ul" && e.classes.contains (str "nav-list")

def isNavItem (d : Nat) (e : Elem) : Bool :=
  e.tag == str "li" && e.classes.contains (str "nav-item") && e.depthAttr == some d

def isNavMenu (e : Elem) : Bool :=
  e.tag == str "nav" && e.classes.contains (str "nav-menu")

def isArticleDoc (e : Elem) : Bool :=
  e.tag == str "article" && e.classes.contains (str "doc")

def isPageTitle (e : Elem) : Bool :=
  e.tag == str "h1" && e.idAttr == str "page-title"

def isBreadcrumbsNav (e : Elem) : Bool :=
  e.tag == str "nav" && e.classes.contains (str "breadcrumbs")

def isAnchorTag (e : Elem) : Bool := e.tag == str "a"

mutual
/-- `elem.querySelectorAll('ul.nav-list > li.nav-item[data-depth="d"]')`
(the child query of `recursiveDepthSearch`): the descendants of `e` that
are `li.nav-item` carrying `data-depth = d` and whose parent element
(possibly `e` itself) is `ul.nav-list`, in document order. -/
def qsaNavItems (d : Nat) : Elem → List Elem
  | e@(.mk _ _ _ _ _ _ ch) => qsaNavItemsL d (isNavList e) ch
def qsaNavItemsL (d : Nat) (parentIsNavList : Bool) : List Elem → List Elem
  | [] => []
  | c :: cs =>
    (if parentIsNavList && isNavItem d c then [c] else []) ++
      qsaNavItems d c ++ qsaNavItemsL d parentIsNavList cs
end

mutual
/-- Matches of `nav.breadcrumbs > ul > li` inside the subtree of an
element whose parent status is `parentIsBc`; used to model
`articleElem.querySelectorAll("nav.breadcrumbs > ul > li")`. -/
def bcDescend (parentIsBc : Bool) : Elem → List Elem
  | e@(.mk _ _ _ _ _ _ ch) =>
    bcDescendL ((e.tag == str "ul") && parentIsBc) (isBreadcrumbsNav e) ch
def bcDescendL (parentIsUlUnderBc : Bool) (parentIsBc : Bool) : List Elem → List Elem
  | [] => []
  | c :: cs =>
    (if parentIsUlUnderBc && c.tag == str "li" then [c] else []) ++
      bcDescend parentIsBc c ++ bcDescendL parentIsUlUnderBc parentIsBc cs
end

/-- `articleElem.querySelectorAll("nav.breadcrumbs > ul > li")` in
document order (the article container itself is `article.doc`, never a
`ul`, so no match can use an ancestor outside the container). -/
def bcItems (articleElem : Elem) : List Elem := bcDescend false articleElem

/-- The node built by `recursiveDepthSearch`: a leaf has no `childData`
property (modelled as `none`); an inner node stores its children in
source order. -/
inductive NavData where
  | mk (title : Str) (href : Str) (external : Bool) (childData : Option (List NavData))

def NavData.title : NavData → Str
  | .mk t _ _ _ => t

def NavData.href : NavData → Str
  | .mk _ h _ _ => h

def NavData.external : NavData → Bool
  | .mk _ _ e _ => e

def NavData.childData : NavData → Option (List NavData)
  | .mk _ _ _ c => c

/-- Sequencing of a loop whose body may throw: the `for` loop of
`recursiveDepthSearch` aborts the whole extraction at the first child
whose recursive call throws, otherwise collects the results in order. -/
def mapOpt (f : α → Option β) : List α → Option (List β)
  | [] => some []
  | x :: xs =>
    match f x with
    | none => none
    | some y =>
      match mapOpt f xs with
      | none => none
      | some ys => some (y :: ys)

/-- Fuel-indexed translation of `recursiveDepthSearch(elem, depth)`.  The
fuel only drives termination; `recursiveDepthSearch` instantiates it with
`sizeE elem`, which is always sufficient (`rdsF_stable`).  `none` models
the `TypeError` thrown when `querySelector("a")` returns `null`.  The
dead third JS parameter `data` (the caller passes `{ childData: [] }`) is
omitted: the first statement of the function overwrites it. -/
def rdsF : Nat → Elem → Nat → Option NavData
  | 0, _, _ => none
  | fuel + 1, elem, depth =>
    match querySelectorD isAnchorTag elem with
    | none => none
    | some a =>
      let childElems := qsaNavItems depth elem
      if childElems.isEmpty then
        some (.mk (textContent a) a.href (a.classes.contains (str "link-external")) none)
      else
        match mapOpt (fun c => rdsF fuel c (depth + 1)) childElems with
        | none => none
        | some cs =>
          some (.mk (textContent a) a.href (a.classes.contains (str "link-external")) (some cs))

/-- `recursiveDepthSearch(elem, depth)`. -/
def recursiveDepthSearch (elem : Elem) (depth : Nat) : Option NavData :=
  rdsF (sizeE elem) elem depth

mutual
/-- `recursiveAnchorProcess(callback, data)`: visit every child (in source
order) before the node itself; the callback threads explicit state and may
rewrite the node (the JS callback mutates `data` and captured outer
variables). -/
def recursiveAnchorProcess (cb : σ → NavData → σ × NavData) (s : σ) :
    NavData → σ × NavData
  | .mk t h ex none => cb s (.mk t h ex none)
  | .mk t h ex (some cs) =>
    let r := recursiveAnchorProcessL cb s cs
    cb r.1 (.mk t h ex (some r.2))
def recursiveAnchorProcessL (cb : σ → NavData → σ × NavData) (s : σ) :
    List NavData → σ × List NavData
  | [] => (s, [])
  | d :: ds =>
    let r1 := recursiveAnchorProcess cb s d
    let r2 := recursiveAnchorProcessL cb r1.1 ds
    (r2.1, r1.2 :: r2.2)
end

/-- The link rewrite of `getSpringBootDocsNavData`:
`baseURL + (href.startsWith('/') ? '' : '/') + href` — the base is
prepended unconditionally. -/
def resolveHref (baseURL href : Str) : Str :=
  baseURL ++ (if href.head? == some '/' then [] else ['/']) ++ href

/-- The resolution callback: falsy hrefs are left alone, every other href
is rewritten in place with `resolveHref`. -/
def resolveCallback (baseURL : Str) : Unit → NavData → Unit × NavData :=
  fun _ d =>
    ((),
      if strTruthy d.href then
        .mk d.title (resolveHref baseURL d.href) d.external d.childData
      else d)

/-- The URL-collection callback of `main`: push `data.href` when it is
truthy and the node is not external. -/
def collectCallback : List Str → NavData → List Str × NavData :=
  fun urls d =>
    (if strTruthy d.href && !d.external then urls ++ [d.href] else urls, d)

/-- `main`'s collection of article URLs from the resolved tree. -/
def collectArticleUrls (d : NavData) : List Str :=
  (recursiveAnchorProcess collectCallback [] d).1

/-- `getSpringBootDocsNavData(baseURL)` over an abstract HTML fetch:
strip one trailing slash from the base URL, fetch and parse the page,
locate `nav.nav-menu`, extract the tree starting at depth 1, then resolve
every href.  `.error` models the rethrowing `catch` (a `null` nav menu
makes `recursiveDepthSearch(null, ...)` throw a `TypeError`). -/
def getSpringBootDocsNavData (fetchHtml : Str → Except Str Elem)
    (baseURL : Str) : Except Str NavData :=
  let base := if baseURL.getLast? == some '/' then baseURL.dropLast else baseURL
  match fetchHtml base with
  | .error e => .error e
  | .ok dom =>
    match querySelectorD isNavMenu dom with
    | none => .error (str "TypeError")
    | some rootNavElem =>
      match recursiveDepthSearch rootNavElem 1 with
      | none => .error (str "TypeError")
      | some refinedData =>
        .ok (recursiveAnchorProcess (resolveCallback base) () refinedData).2

/-- The per-document record built by `getSpringBootDocsArticleData`. -/
structure Article where
  url : Str
  title : Str
  breadcrumbs : Str
  content : Str
deriving DecidableEq

/-- `getArticleTitle`: `querySelector("h1#page-title").textContent.trim()`;
`none` models the `TypeError` on a missing heading. -/
def getArticleTitle (articleElem : Elem) : Option Str :=
  (querySelectorD isPageTitle articleElem).map (fun h => jsTrim (textContent h))

/-- `getArticleBreadcrumbs`: trimmed text of each breadcrumb item joined
with `" > "`. -/
def getArticleBreadcrumbs (articleElem : Elem) : Str :=
  List.intercalate (str " > ") ((bcItems articleElem).map (fun li => jsTrim (textContent li)))

/-- `getSpringBootDocsArticleData(url)` over an abstract HTML fetch.  Every
failure — transport error, missing `article.doc` container, missing page
title — is rethrown by the function's `catch` and surfaces as `.error`. -/
def getSpringBootDocsArticleData (fetchHtml : Str → Except Str Elem)
    (url : Str) : Except Str Article :=
  match fetchHtml url with
  | .error e => .error e
  | .ok docDOM =>
    match querySelectorD isArticleDoc docDOM with
    | none => .error (str "문서 요소를 찾을 수 없습니다.")
    | some articleElem =>
      match getArticleTitle articleElem with
      | none => .error (str "TypeError")
      | some title =>
        .ok ⟨url, title, getArticleBreadcrumbs articleElem, innerHTML articleElem⟩

/-- Fuel-indexed batching loop of `main`
(`for (let i = 0; i < urls.length; i += BATCH_SIZE) { batch = urls.slice(i, i + BATCH_SIZE); ... }`).
`batchSize = 0` would loop forever in JS; the model returns `[]` there and
every scheduler claim assumes a positive batch size. -/
def chunksF : Nat → Nat → List Str → List (List Str)
  | 0, _, _ => []
  | _ + 1, _, [] => []
  | fuel + 1, batchSize, l@(_ :: _) =>
    if batchSize == 0 then []
    else l.take batchSize :: chunksF fuel batchSize (l.drop batchSize)

/-- The consecutive batches `main` slices out of the URL list. -/
def chunks (batchSize : Nat) (l : List Str) : List (List Str) :=
  chunksF l.length batchSize l

/-- Observable state of one run of `main`'s fetch loop: the completion
counter, the successive arguments passed to `progress.update`, the
accumulated non-null article data, and how many inter-batch
`setTimeout(500)` pauses were awaited. -/
structure RunState where
  completedCount : Nat
  progressCalls : List Nat
  articleDataArr : List Article
  delays : Nat
deriving DecidableEq

/-- One iteration of `main`'s batch loop: every task of the batch settles
(`Promise.all` of handlers that increment the counter and call
`progress.update` on success and on failure alike), the non-null results
are appended in task order, and the 500 ms delay is awaited. -/
def runBatch (fetchOne : Str → Except Str Article) (s : RunState)
    (batch : List Str) : RunState :=
  let settled := batch.map fetchOne
  let afterProgress := settled.foldl
    (fun st _ =>
      { st with
        completedCount := st.completedCount + 1
        progressCalls := st.progressCalls ++ [st.completedCount + 1] }) s
  { afterProgress with
    articleDataArr := afterProgress.articleDataArr ++ settled.filterMap Except.toOption
    delays := afterProgress.delays + 1 }

/-- `main`'s whole fetch loop over the collected URLs. -/
def runBatches (fetchOne : Str → Except Str Article) (articleUrls : List Str)
    (batchSize : Nat) : RunState :=
  (chunks batchSize articleUrls).foldl (runBatch fetchOne) ⟨0, [], [], 0⟩

/-- The value stored per title in `allArticleData`. -/
structure IndexEntry where
  url : Str
  breadcrumbs : Str
  content : Str
deriving DecidableEq

/-- JS object property assignment `obj[key] = v`: an existing key keeps
its position and gets the new value, a new key is appended. -/
def setKey (m : List (Str × IndexEntry)) (k : Str) (v : IndexEntry) :
    List (Str × IndexEntry) :=
  if m.any (fun p => p.1 == k) then
    m.map (fun p => if p.1 == k then (k, v) else p)
  else m ++ [(k, v)]

/-- `main`'s aggregation: `allArticleData[articleData.title] = {...}` over
the successful articles in task order. -/
def buildAllArticleData (arts : List Article) : List (Str × IndexEntry) :=
  arts.foldl (fun m a => setKey m a.title ⟨a.url, a.breadcrumbs, a.content⟩) []


mutual
/-- Size of a navigation node (used only to drive induction in proofs). -/
def sizeN : NavData → Nat
  | .mk _ _ _ none => 1
  | .mk _ _ _ (some cs) => 1 + sizeNL cs
def sizeNL : List NavData → Nat
  | [] => 0
  | d :: ds => sizeN d + sizeNL ds
end

/-- The URLs contributed by one node under `main`'s collection rule:
its href when truthy and the node is not external, nothing otherwise. -/
def collectOut (d : NavData) : List Str :=
  if strTruthy d.href && !d.external then [d.href] else []

mutual
/-- Pure post-order collection over a navigation tree: all URLs of the
children (in source order) followed by the node's own contribution; used
to characterise the state threaded through `recursiveAnchorProcess`. -/
def navPostorder (out : NavData → List Str) : NavData → List Str
  | .mk t h ex none => out (.mk t h ex none)
  | .mk t h ex (some cs) => navPostorderL out cs ++ out (.mk t h ex (some cs))
def navPostorderL (out : NavData → List Str) : List NavData → List Str
  | [] => []
  | d :: ds => navPostorder out d ++ navPostorderL out ds
end

/-! ### Concrete sample data used by counterexamples and witnesses -/

/-- An anchor element with the given text, href, and external marker. -/
def anchorEl (t h : String) (ext : Bool) : Elem :=
  .mk (str "a") [] (if ext then [str "link-external"] else []) none (str t) (str h) []

/-- A `li.nav-item` with a `data-depth` marker. -/
def navItemEl (d : Nat) (ch : List Elem) : Elem :=
  .mk (str "li") [] [str "nav-item"] (some d) [] [] ch

/-- A `ul.nav-list`. -/
def navListEl (ch : List Elem) : Elem :=
  .mk (str "ul") [] [str "nav-list"] none [] [] ch

/-- A navigation menu shaped like the crawled site:
three depth-1 items A, B (external), C, with C holding a depth-2 item D. -/
def sampleNavMenu : Elem :=
  .mk (str "nav") [] [str "nav-menu"] none [] []
    [navListEl
      [navItemEl 1 [anchorEl "A" "a.html" false],
        navItemEl 1 [anchorEl "B" "https://b.example" true],
        navItemEl 1
          [anchorEl "C" "c/" false, navListEl [navItemEl 2 [anchorEl "D" "/d.html" false]]]]]

/-- A parsed document holding `sampleNavMenu`. -/
def sampleNavDoc : Elem := .mk (str "#document") [] [] none [] [] [sampleNavMenu]

/-- An HTML fetch that always answers with `sampleNavDoc`. -/
def sampleNavFetch : Str → Except Str Elem := fun _ => .ok sampleNavDoc

/-- A navigation menu whose only content is a single anchor. -/
def miniMenu : Elem :=
  .mk (str "nav") [] [str "nav-menu"] none [] [] [anchorEl "Home" "/home" false]

/-- A container holding an anchor and one nested navigation item whose
`data-depth` marker is `2`. -/
def c3Elem : Elem :=
  navItemEl 1
    [anchorEl "P" "p.html" false, navListEl [navItemEl 2 [anchorEl "Q" "q.html" false]]]

/-- The example tree of the spec, with the four hrefs abstracted:
root (empty title/href) → [A, B (external), C → [D]]. -/
def exampleShape (hA hB hC hD : Str) : NavData :=
  .mk [] [] false (some
    [.mk (str "A") hA false none,
      .mk (str "B") hB true none,
      .mk (str "C") hC false (some [.mk (str "D") hD false none])])

/-- The example tree of the spec with concrete URLs. -/
def exampleTree : NavData :=
  exampleShape (str "urlA") (str "urlB") (str "urlC") (str "urlD")

/-- A fetch in which every task succeeds. -/
def okFetchOne : Str → Except Str Article := fun u => .ok ⟨u, str "T", [], []⟩

/-- A fetch in which exactly the task `"bad"` fails. -/
def mixedFetchOne : Str → Except Str Article :=
  fun u => if u == str "bad" then .error (str "boom") else .ok ⟨u, str "T", [], []⟩

/-- An article page: `article.doc` with an `h1#page-title`, breadcrumbs,
and a body paragraph. -/
def sampleArticleElem : Elem :=
  .mk (str "article") [] [str "doc"] none [] []
    [.mk (str "h1") (str "page-title") [] none (str " Getting Started ") [] [],
      .mk (str "nav") [] [str "breadcrumbs"] none [] []
        [.mk (str "ul") [] [] none [] []
          [.mk (str "li") [] [] none (str "Home") [] [],
            .mk (str "li") [] [] none (str "Docs") [] []]],
      .mk (str "p") [] [] none (str "Body text.") [] []]

/-- A parsed document holding `sampleArticleElem`. -/
def sampleArticleDoc : Elem := .mk (str "#document") [] [] none [] [] [sampleArticleElem]

/-- An HTML fetch that fails on the URL `"bad"` and answers with the
sample article page otherwise. -/
def articleFetchHtml : Str → Except Str Elem :=
  fun u => if u == str "bad" then .error (str "ECONNREFUSED") else .ok sampleArticleDoc

/-- Fetch results holding two successes that share one title. -/
def dupTitleResults : List (Except Str Article) :=
  [.ok ⟨str "u1", str "T", [], []⟩, .error (str "boom"), .ok ⟨str "u2", str "T", [], []⟩]

/-- Fetch results holding two successes with distinct titles. -/
def distinctTitleResults : List (Except Str Article) :=
  [.ok ⟨str "u1", str "T1", [], []⟩, .error (str "boom"), .ok ⟨str "u2", str "T2", [], []⟩]

/-- Seven task URLs (the spec example for batching). -/
def tasks7 : List Str :=
  [str "u1", str "u2", str "u3", str "u4", str "u5", str "u6", str "u7"]

/-! ### Basic lemmas about the DOM model -/

lemma sizeE_pos (e : Elem) : 0 < sizeE e := by
  cases e with
  | mk t i c d tx h ch => simp [sizeE]

lemma sizeL_cons (c : Elem) (cs : List Elem) : sizeL (c :: cs) = sizeE c + sizeL cs := by
  simp [sizeL]

lemma strTruthy_nil : strTruthy [] = false := rfl

lemma strTruthy_of_ne {s : Str} (h : s ≠ []) : strTruthy s = true := by
  cases s with
  | nil => exact absurd rfl h
  | cons a as => rfl

lemma qsaNavItemsL_mem {d : Nat} :
    ∀ n (l : List Elem) (p : Bool) (x : Elem), sizeL l ≤ n →
      x ∈ qsaNavItemsL d p l → sizeE x ≤ sizeL l ∧ isNavItem d x = true := by
  intro n
  induction n with
  | zero =>
    intro l p x hle hx
    cases l with
    | nil => simp [qsaNavItemsL] at hx
    | cons c cs =>
      exfalso
      have := sizeE_pos c
      rw [sizeL_cons] at hle
      omega
  | succ n ih =>
    intro l p x hle hx
    cases l with
    | nil => simp [qsaNavItemsL] at hx
    | cons c cs =>
      have hsc := sizeE_pos c
      rw [sizeL_cons] at hle ⊢
      simp only [qsaNavItemsL, List.append_assoc, List.mem_append] at hx
      rcases hx with hx | hx | hx
      · by_cases hcond : (p && isNavItem d c) = true
        · rw [if_pos hcond] at hx
          rw [List.mem_singleton] at hx
          subst hx
          rw [Bool.and_eq_true] at hcond
          exact ⟨by omega, hcond.2⟩
        · rw [if_neg hcond] at hx
          simp at hx
      · cases c with
        | mk tg idv cls da tx hr ch =>
          simp only [qsaNavItems] at hx
          have hszc : sizeE (Elem.mk tg idv cls da tx hr ch) = 1 + sizeL ch := by
            simp [sizeE]
          have hch : sizeL ch ≤ n := by omega
          have hres := ih ch _ x hch hx
          exact ⟨by omega, hres.2⟩
      · have hcs : sizeL cs ≤ n := by omega
        have hres := ih cs p x hcs hx
        exact ⟨by omega, hres.2⟩

lemma qsaNavItems_mem {d : Nat} {e x : Elem} (hx : x ∈ qsaNavItems d e) :
    sizeE x < sizeE e ∧ isNavItem d x = true := by
  cases e with
  | mk tg idv cls da tx hr ch =>
    simp only [qsaNavItems] at hx
    have hres := qsaNavItemsL_mem (sizeL ch) ch _ x le_rfl hx
    have : sizeE (Elem.mk tg idv cls da tx hr ch) = 1 + sizeL ch := by simp [sizeE]
    exact ⟨by omega, hres.2⟩

lemma mapOpt_congr {f g : α → Option β} :
    ∀ {l : List α}, (∀ x ∈ l, f x = g x) → mapOpt f l = mapOpt g l := by
  intro l
  induction l with
  | nil => intro _; rfl
  | cons x xs ih =>
    intro h
    simp only [mapOpt]
    rw [h x (List.mem_cons_self x xs), ih (fun y hy => h y (List.mem_cons_of_mem x hy))]

lemma rdsF_stable :
    ∀ n (e : Elem), sizeE e ≤ n → ∀ depth f1 f2, sizeE e ≤ f1 → sizeE e ≤ f2 →
      rdsF f1 e depth = rdsF f2 e depth := by
  intro n
  induction n using Nat.strong_induction_on with
  | _ n ih =>
    intro e he depth f1 f2 h1 h2
    have hpos := sizeE_pos e
    obtain ⟨k1, rfl⟩ : ∃ k, f1 = k + 1 := ⟨f1 - 1, by omega⟩
    obtain ⟨k2, rfl⟩ : ∃ k, f2 = k + 1 := ⟨f2 - 1, by omega⟩
    simp only [rdsF]
    cases hq : querySelectorD isAnchorTag e with
    | none => rfl
    | some a =>
      by_cases hemp : (qsaNavItems depth e).isEmpty
      · simp [hemp]
      · simp only [hemp, if_neg, Bool.false_eq_true, not_false_eq_true]
        have hcong :
            mapOpt (fun c => rdsF k1 c (depth + 1)) (qsaNavItems depth e) =
              mapOpt (fun c => rdsF k2 c (depth + 1)) (qsaNavItems depth e) := by
          apply mapOpt_congr
          intro c hc
          have hm := (qsaNavItems_mem hc).1
          exact ih (sizeE c) (by omega) c le_rfl (depth + 1) k1 k2 (by omega) (by omega)
        rw [hcong]

lemma recursiveDepthSearch_eq (e : Elem) (d : Nat) :
    recursiveDepthSearch e d =
      match querySelectorD isAnchorTag e with
      | none => none
      | some a =>
        if (qsaNavItems d e).isEmpty then
          some (.mk (textContent a) a.href (a.classes.contains (str "link-external")) none)
        else
          match mapOpt (fun c => recursiveDepthSearch c (d + 1)) (qsaNavItems d e) with
          | none => none
          | some cs =>
            some (.mk (textContent a) a.href (a.classes.contains (str "link-external")) (some cs)) := by
  have hpos := sizeE_pos e
  obtain ⟨k, hk⟩ : ∃ k, sizeE e = k + 1 := ⟨sizeE e - 1, by omega⟩
  unfold recursiveDepthSearch
  rw [hk]
  simp only [rdsF]
  cases hq : querySelectorD isAnchorTag e with
  | none => rfl
  | some a =>
    by_cases hemp : (qsaNavItems d e).isEmpty
    · simp [hemp]
    · simp only [hemp, Bool.false_eq_true, if_neg, not_false_eq_true]
      have hcong :
          mapOpt (fun c => rdsF k c (d + 1)) (qsaNavItems d e) =
            mapOpt (fun c => rdsF (sizeE c) c (d + 1)) (qsaNavItems d e) := by
        apply mapOpt_congr
        intro c hc
        have hm := (qsaNavItems_mem hc).1
        exact rdsF_stable (sizeE c) c le_rfl (d + 1) k (sizeE c) (by omega) le_rfl
      rw [hcong]

/-! ### Lemmas about the batching loop -/

lemma chunksF_nil (f B : Nat) : chunksF f B [] = [] := by
  cases f <;> rfl

lemma chunks_nil (B : Nat) : chunks B [] = [] := rfl

lemma chunksF_stable :
    ∀ n (l : List Str) (B f1 f2 : Nat), l.length ≤ n → l.length ≤ f1 → l.length ≤ f2 →
      chunksF f1 B l = chunksF f2 B l := by
  intro n
  induction n using Nat.strong_induction_on with
  | _ n ih =>
    intro l B f1 f2 hn h1 h2
    cases l with
    | nil => rw [chunksF_nil, chunksF_nil]
    | cons x xs =>
      have hlen : 0 < (x :: xs).length := by simp
      obtain ⟨k1, rfl⟩ : ∃ k, f1 = k + 1 := ⟨f1 - 1, by omega⟩
      obtain ⟨k2, rfl⟩ : ∃ k, f2 = k + 1 := ⟨f2 - 1, by omega⟩
      simp only [chunksF]
      by_cases hB : (B == 0) = true
      · simp [hB]
      · simp only [hB, Bool.false_eq_true, if_neg, not_false_eq_true]
        have hBpos : 0 < B := by
          rcases Nat.eq_zero_or_pos B with h | h
          · subst h; simp at hB
          · exact h
        have hdrop : ((x :: xs).drop B).length < (x :: xs).length := by
          rw [List.length_drop]
          omega
        rw [ih ((x :: xs).drop B).length (by omega) _ B k1 k2 le_rfl (by omega) (by omega)]

lemma chunks_cons {B : Nat} (hB : 0 < B) {l : List Str} (h : l ≠ []) :
    chunks B l = l.take B :: chunks B (l.drop B) := by
  cases l with
  | nil => exact absurd rfl h
  | cons x xs =>
    unfold chunks
    simp only [List.length_cons, chunksF]
    have hB0 : (B == 0) = false := by
      cases B with
      | zero => omega
      | succ b => rfl
    simp only [hB0, Bool.false_eq_true, if_neg, not_false_eq_true]
    have hdrop : ((x :: xs).drop B).length ≤ xs.length := by
      rw [List.length_drop]
      simp only [List.length_cons]
      omega
    rw [chunksF_stable ((x :: xs).drop B).length _ B xs.length ((x :: xs).drop B).length
      le_rfl hdrop le_rfl]

lemma chunks_flatten_aux {B : Nat} (hB : 0 < B) :
    ∀ n (l : List Str), l.length ≤ n → (chunks B l).flatten = l := by
  intro n
  induction n using Nat.strong_induction_on with
  | _ n ih =>
    intro l hn
    by_cases h : l = []
    · subst h; rw [chunks_nil]; rfl
    · rw [chunks_cons hB h]
      have hlpos : 0 < l.length := List.length_pos.mpr h
      have hdrop : (l.drop B).length < l.length := by
        rw [List.length_drop]; omega
      rw [List.flatten_cons, ih (l.drop B).length (by omega) _ le_rfl]
      exact List.take_append_drop B l

lemma chunks_flatten {B : Nat} (hB : 0 < B) (l : List Str) : (chunks B l).flatten = l :=
  chunks_flatten_aux hB l.length l le_rfl

lemma chunks_length_aux {B : Nat} (hB : 0 < B) :
    ∀ n (l : List Str), l.length ≤ n → (chunks B l).length = (l.length + B - 1) / B := by
  intro n
  induction n using Nat.strong_induction_on with
  | _ n ih =>
    intro l hn
    by_cases h : l = []
    · subst h
      rw [chunks_nil]
      simp [Nat.div_eq_of_lt (show B - 1 < B by omega)]
    · rw [chunks_cons hB h]
      have hlpos : 0 < l.length := List.length_pos.mpr h
      have hdrop : (l.drop B).length < l.length := by
        rw [List.length_drop]; omega
      rw [List.length_cons, ih (l.drop B).length (by omega) _ le_rfl]
      rw [List.length_drop]
      have hnum : l.length + B - 1 = (l.length - 1) + B := by omega
      rw [hnum, Nat.add_div_right _ hB]
      have hsame : (l.length - B + B - 1) / B = (l.length - 1) / B := by
        by_cases hle : l.length ≤ B
        · have e1 : l.length - B + B - 1 = B - 1 := by omega
          have e2 : l.length - 1 < B := by omega
          rw [e1, Nat.div_eq_of_lt (by omega), Nat.div_eq_of_lt e2]
        · have e1 : l.length - B + B - 1 = l.length - 1 := by omega
          rw [e1]
      omega

lemma chunks_length {B : Nat} (hB : 0 < B) (l : List Str) :
    (chunks B l).length = (l.length + B - 1) / B :=
  chunks_length_aux hB l.length l le_rfl

lemma chunks_mem_length_aux {B : Nat} (hB : 0 < B) :
    ∀ n (l : List Str), l.length ≤ n → ∀ c ∈ chunks B l, c.length ≤ B := by
  intro n
  induction n using Nat.strong_induction_on with
  | _ n ih =>
    intro l hn c hc
    by_cases h : l = []
    · subst h; rw [chunks_nil] at hc; simp at hc
    · rw [chunks_cons hB h] at hc
      have hlpos : 0 < l.length := List.length_pos.mpr h
      have hdrop : (l.drop B).length < l.length := by
        rw [List.length_drop]; omega
      rcases List.mem_cons.mp hc with hc | hc
      · subst hc
        rw [List.length_take]
        omega
      · exact ih (l.drop B).length (by omega) _ le_rfl c hc

lemma chunks_mem_length {B : Nat} (hB : 0 < B) (l : List Str) :
    ∀ c ∈ chunks B l, c.length ≤ B :=
  chunks_mem_length_aux hB l.length l le_rfl

lemma chunks_getD_aux {B : Nat} (hB : 0 < B) :
    ∀ n (l : List Str), l.length ≤ n →
      ∀ i, i + 1 < (chunks B l).length → ((chunks B l).getD i []).length = B := by
  intro n
  induction n using Nat.strong_induction_on with
  | _ n ih =>
    intro l hn i hi
    by_cases h : l = []
    · subst h; rw [chunks_nil] at hi; simp at hi
    · have hlpos : 0 < l.length := List.length_pos.mpr h
      have hdrop : (l.drop B).length < l.length := by
        rw [List.length_drop]; omega
      rw [chunks_cons hB h] at hi ⊢
      cases i with
      | zero =>
        have htail : chunks B (l.drop B) ≠ [] := by
          simp only [List.length_cons] at hi
          intro hcontra
          rw [hcontra] at hi
          simp at hi
        have hdropne : l.drop B ≠ [] := by
          intro hcontra
          rw [hcontra, chunks_nil] at htail
          exact htail rfl
        have hlong : B < l.length := by
          by_contra hcontra
          have : l.drop B = [] := List.drop_eq_nil_of_le (by omega)
          exact hdropne this
        simp only [List.getD_cons_zero, List.length_take]
        omega
      | succ i =>
        simp only [List.getD_cons_succ]
        simp only [List.length_cons] at hi
        exact ih (l.drop B).length (by omega) _ le_rfl i (by omega)

lemma chunks_getD {B : Nat} (hB : 0 < B) (l : List Str) :
    ∀ i, i + 1 < (chunks B l).length → ((chunks B l).getD i []).length = B :=
  chunks_getD_aux hB l.length l le_rfl

/-! ### Lemmas about the fetch loop -/

lemma range'_glue : ∀ (m a k : Nat),
    List.range' a m ++ List.range' (a + m) k = List.range' a (m + k) := by
  intro m
  induction m with
  | zero => intro a k; simp [List.range']
  | succ m ih =>
    intro a k
    have hshift : a + (m + 1) = (a + 1) + m := by omega
    simp only [List.range', List.cons_append]
    rw [hshift, ih (a + 1) k]
    have : m + 1 + k = (m + k) + 1 := by omega
    rw [this]
    simp [List.range']

lemma settleFold_spec (l : List (Except Str Article)) : ∀ s : RunState,
    l.foldl
        (fun st _ =>
          { st with
            completedCount := st.completedCount + 1
            progressCalls := st.progressCalls ++ [st.completedCount + 1] }) s =
      ⟨s.completedCount + l.length,
        s.progressCalls ++ List.range' (s.completedCount + 1) l.length,
        s.articleDataArr, s.delays⟩ := by
  induction l with
  | nil => intro s; cases s; simp [List.range']
  | cons x xs ih =>
    intro s
    rw [List.foldl_cons, ih]
    cases s with
    | mk c p arr d =>
      have h1 : c + 1 + xs.length = c + (xs.length + 1) := by omega
      have h2 : (p ++ [c + 1]) ++ List.range' (c + 1 + 1) xs.length =
          p ++ List.range' (c + 1) (xs.length + 1) := by
        rw [List.append_assoc]
        congr 1
      simp only [List.length_cons]
      rw [h1, h2]

lemma runBatch_spec (f : Str → Except Str Article) (s : RunState) (batch : List Str) :
    runBatch f s batch =
      ⟨s.completedCount + batch.length,
        s.progressCalls ++ List.range' (s.completedCount + 1) batch.length,
        s.articleDataArr ++ batch.filterMap (fun u => (f u).toOption),
        s.delays + 1⟩ := by
  simp only [runBatch]
  rw [settleFold_spec]
  simp only [List.length_map, List.filterMap_map]
  rfl

lemma runBatches_fold_spec (f : Str → Except Str Article) :
    ∀ (batches : List (List Str)) (s : RunState),
      batches.foldl (runBatch f) s =
        ⟨s.completedCount + batches.flatten.length,
          s.progressCalls ++ List.range' (s.completedCount + 1) batches.flatten.length,
          s.articleDataArr ++ batches.flatten.filterMap (fun u => (f u).toOption),
          s.delays + batches.length⟩ := by
  intro batches
  induction batches with
  | nil => intro s; cases s; simp [List.range']
  | cons b bs ih =>
    intro s
    rw [List.foldl_cons, runBatch_spec, ih]
    simp only [List.flatten_cons, List.length_append, List.filterMap_append,
      List.length_cons, RunState.mk.injEq]
    refine ⟨by omega, ?_, by simp, by omega⟩
    rw [List.append_assoc]
    congr 1
    have hshift : s.completedCount + b.length + 1 = (s.completedCount + 1) + b.length := by
      omega
    rw [hshift, range'_glue b.length (s.completedCount + 1) bs.flatten.length]

lemma runBatches_spec (f : Str → Except Str Article) (tasks : List Str) (B : Nat) :
    runBatches f tasks B =
      ⟨(chunks B tasks).flatten.length,
        List.range' 1 (chunks B tasks).flatten.length,
        (chunks B tasks).flatten.filterMap (fun u => (f u).toOption),
        (chunks B tasks).length⟩ := by
  unfold runBatches
  rw [runBatches_fold_spec]
  simp

/-! ### Lemmas about the aggregation -/

lemma setKey_of_not_mem (m : List (Str × IndexEntry)) (k : Str) (v : IndexEntry)
    (hk : k ∉ m.map Prod.fst) : setKey m k v = m ++ [(k, v)] := by
  unfold setKey
  have hany : (m.any fun p => p.1 == k) = false := by
    rw [List.any_eq_false]
    intro p hp
    intro hbeq
    exact hk (List.mem_map.mpr ⟨p, hp, eq_of_beq hbeq⟩)
  simp [hany]

lemma setKey_keys_of_not_mem (m : List (Str × IndexEntry)) (k : Str) (v : IndexEntry)
    (hk : k ∉ m.map Prod.fst) :
    (setKey m k v).map Prod.fst = m.map Prod.fst ++ [k] := by
  rw [setKey_of_not_mem m k v hk]
  simp

lemma buildFold_length :
    ∀ (arts : List Article) (m : List (Str × IndexEntry)),
      (∀ a ∈ arts, a.title ∉ m.map Prod.fst) → (arts.map Article.title).Nodup →
      (arts.foldl (fun m a => setKey m a.title ⟨a.url, a.breadcrumbs, a.content⟩) m).length =
        m.length + arts.length := by
  intro arts
  induction arts with
  | nil => intro m _ _; simp
  | cons a rest ih =>
    intro m hmem hnodup
    rw [List.foldl_cons]
    have hka : a.title ∉ m.map Prod.fst := hmem a (List.mem_cons_self a rest)
    rw [List.map_cons, List.nodup_cons] at hnodup
    have hstep := setKey_of_not_mem m a.title ⟨a.url, a.breadcrumbs, a.content⟩ hka
    have hkeys := setKey_keys_of_not_mem m a.title ⟨a.url, a.breadcrumbs, a.content⟩ hka
    rw [ih _ ?_ hnodup.2]
    · rw [hstep]
      simp only [List.length_append, List.length_cons, List.length_nil]
      omega
    · intro b hb
      rw [hkeys]
      intro hcontra
      rcases List.mem_append.mp hcontra with hcase | hcase
      · exact hmem b (List.mem_cons_of_mem a hb) hcase
      · rw [List.mem_singleton] at hcase
        exact hnodup.1 (hcase ▸ List.mem_map.mpr ⟨b, hb, rfl⟩)

lemma buildAllArticleData_length_nodup (arts : List Article)
    (h : (arts.map Article.title).Nodup) :
    (buildAllArticleData arts).length = arts.length := by
  unfold buildAllArticleData
  rw [buildFold_length arts [] (by simp) h]
  simp

lemma sizeN_pos (d : NavData) : 0 < sizeN d := by
  cases d with
  | mk t h ex cd => cases cd <;> simp [sizeN]

lemma sizeN_mem_le {x : NavData} : ∀ {l : List NavData}, x ∈ l → sizeN x ≤ sizeNL l := by
  intro l
  induction l with
  | nil => intro hx; simp at hx
  | cons d ds ih =>
    intro hx
    rcases List.mem_cons.mp hx with hx | hx
    · subst hx
      simp only [sizeNL]
      omega
    · have := ih hx
      simp only [sizeNL]
      omega

lemma rapL_collect_of (l : List NavData)
    (hx : ∀ x ∈ l, ∀ s, recursiveAnchorProcess collectCallback s x =
      (s ++ navPostorder collectOut x, x)) :
    ∀ s, recursiveAnchorProcessL collectCallback s l =
      (s ++ navPostorderL collectOut l, l) := by
  induction l with
  | nil => intro s; simp [recursiveAnchorProcessL, navPostorderL]
  | cons d ds ih =>
    intro s
    simp only [recursiveAnchorProcessL, navPostorderL]
    rw [hx d (List.mem_cons_self d ds)]
    rw [ih (fun x hmem => hx x (List.mem_cons_of_mem d hmem))]
    simp [List.append_assoc]

lemma rap_collect : ∀ n (d : NavData), sizeN d ≤ n →
    ∀ s, recursiveAnchorProcess collectCallback s d =
      (s ++ navPostorder collectOut d, d) := by
  intro n
  induction n using Nat.strong_induction_on with
  | _ n ih =>
    intro d hd s
    cases d with
    | mk t h ex cd =>
      cases cd with
      | none =>
        simp only [recursiveAnchorProcess, navPostorder, collectCallback, collectOut,
          NavData.href, NavData.external]
        by_cases hc : (strTruthy h && !ex) = true
        · simp [hc]
        · simp [hc]
      | some cs =>
        have hszn : sizeN (NavData.mk t h ex (some cs)) = 1 + sizeNL cs := by
          simp [sizeN]
        have hcs : ∀ x ∈ cs, ∀ s', recursiveAnchorProcess collectCallback s' x =
            (s' ++ navPostorder collectOut x, x) := by
          intro x hmem s'
          have hsx : sizeN x ≤ sizeNL cs := sizeN_mem_le hmem
          exact ih (sizeNL cs) (by omega) x hsx s'
        have hl := rapL_collect_of cs hcs s
        simp only [recursiveAnchorProcess, navPostorder]
        rw [hl]
        simp only [collectCallback, collectOut, NavData.href, NavData.external]
        by_cases hc : (strTruthy h && !ex) = true
        · simp [hc, List.append_assoc]
        · simp [hc, List.append_assoc]

lemma collectArticleUrls_eq_postorder (d : NavData) :
    collectArticleUrls d = navPostorder collectOut d := by
  unfold collectArticleUrls
  rw [rap_collect (sizeN d) d le_rfl []]
  simp

lemma navPostorderL_eq_flatMap (l : List NavData) :
    navPostorderL collectOut l = l.flatMap (navPostorder collectOut) := by
  induction l with
  | nil => rfl
  | cons d ds ih => simp [navPostorderL, ih]

/-! ### Claim theorems -/

/-- C1: the spec requires `resolve` to leave an already-absolute URL
unchanged and to be idempotent, but the source resolves by unconditional
concatenation (`baseURL + (href.startsWith('/') ? '' : '/') + href`):
at the spec's own example input the absolute URL is changed, and
re-resolving changes it again. -/
theorem resolveHref_not_idempotent :
    resolveHref (str "https://docs.example.com") (str "https://x.com/a") ≠
      str "https://x.com/a" ∧
    resolveHref (str "https://docs.example.com")
        (resolveHref (str "https://docs.example.com") (str "https://x.com/a")) ≠
      resolveHref (str "https://docs.example.com") (str "https://x.com/a") := by
  constructor
  · decide
  · decide

/-- C2 (counterexample): on the spec's example tree
root → [A, B(external), C → [D]] the walk collects the in-domain URLs in
post-order — children before their parent — so the flattened sequence is
[A, D, C], not the claimed [A, C, D]. -/
theorem collectArticleUrls_not_parent_first :
    collectArticleUrls exampleTree = [str "urlA", str "urlD", str "urlC"] ∧
    collectArticleUrls exampleTree ≠ [str "urlA", str "urlC", str "urlD"] := by
  constructor
  · rfl
  · decide

/-- C2 (amended): for every navigation node, the walk collects the
children's URLs in source order before the node's own URL (post-order),
and a node contributes its href exactly when the href is truthy and the
node is not external; on the spec's example tree
root → [A, B(external), C → [D]] this yields exactly [A, D, C]. -/
theorem collectArticleUrls_postorder :
    (∀ (t h : Str) (ex : Bool) (cd : Option (List NavData)),
      collectArticleUrls (.mk t h ex cd) =
        (cd.getD []).flatMap collectArticleUrls ++
          (if strTruthy h && !ex then [h] else [])) ∧
    collectArticleUrls exampleTree = [str "urlA", str "urlD", str "urlC"] := by
  constructor
  · intro t h ex cd
    rw [collectArticleUrls_eq_postorder]
    have hfun : navPostorder collectOut = collectArticleUrls :=
      funext fun x => (collectArticleUrls_eq_postorder x).symm
    cases cd with
    | none =>
      simp [navPostorder, collectOut, NavData.href, NavData.external]
    | some cs =>
      simp only [navPostorder, Option.getD]
      rw [navPostorderL_eq_flatMap, hfun]
      simp [collectOut, NavData.href, NavData.external]
  · rfl

/-- C3 (counterexample): the extraction queries the marker `d`, not
`d + 1`.  `c3Elem` holds exactly one navigation item with marker `2`
(a direct child of its nested `ul.nav-list`), yet extraction at depth `1`
returns a leaf with no children — the claim would make that item the
node's only child. -/
theorem recursiveDepthSearch_marker_not_succ :
    recursiveDepthSearch c3Elem 1 = some (.mk (str "P") (str "p.html") false none) ∧
    (qsaNavItems 2 c3Elem).length = 1 ∧
    (qsaNavItems 1 c3Elem).length = 0 := by
  refine ⟨rfl, rfl, rfl⟩

/-- C3 (amended): extraction at depth `d` selects as children exactly the
navigation items under the container whose structural marker equals `d`
(not `d + 1`), recursing into each with depth `d + 1` in source order;
with no such items the node is a leaf. -/
theorem recursiveDepthSearch_children_characterization (e : Elem) (d : Nat) (n : NavData)
    (h : recursiveDepthSearch e d = some n) :
    (n.childData = none ↔ qsaNavItems d e = []) ∧
    (∀ cs, n.childData = some cs →
      mapOpt (fun c => recursiveDepthSearch c (d + 1)) (qsaNavItems d e) = some cs) ∧
    (∀ x ∈ qsaNavItems d e, x.depthAttr = some d) := by
  have hdep : ∀ x ∈ qsaNavItems d e, x.depthAttr = some d := by
    intro x hx
    have hitem := (qsaNavItems_mem hx).2
    unfold isNavItem at hitem
    rw [Bool.and_eq_true] at hitem
    exact eq_of_beq hitem.2
  rw [recursiveDepthSearch_eq] at h
  split at h
  · simp at h
  · rename_i a ha
    by_cases hemp : (qsaNavItems d e).isEmpty
    · rw [if_pos hemp] at h
      have hnil : qsaNavItems d e = [] := by
        cases hl : qsaNavItems d e with
        | nil => rfl
        | cons y ys => rw [hl] at hemp; simp at hemp
      obtain rfl : NavData.mk (textContent a) a.href
          (a.classes.contains (str "link-external")) none = n := Option.some.inj h
      refine ⟨?_, ?_, hdep⟩
      · simp [NavData.childData, hnil]
      · intro cs hcs
        simp [NavData.childData] at hcs
    · rw [if_neg hemp] at h
      cases hm : mapOpt (fun c => recursiveDepthSearch c (d + 1)) (qsaNavItems d e) with
      | none => rw [hm] at h; simp at h
      | some cs0 =>
        rw [hm] at h
        obtain rfl : NavData.mk (textContent a) a.href
            (a.classes.contains (str "link-external")) (some cs0) = n := Option.some.inj h
        have hne : qsaNavItems d e ≠ [] := by
          intro hc
          rw [hc] at hemp
          exact hemp rfl
        refine ⟨?_, ?_, hdep⟩
        · simp [NavData.childData, hne]
        · intro cs hcs
          have hcc : cs0 = cs := by simpa [NavData.childData] using hcs
          subst hcc
          rfl

/-- Witness for C3 (amended) at `c3Elem` extracted at depth 2. -/
theorem recursiveDepthSearch_children_characterization_witness :
    ((NavData.mk (str "P") (str "p.html") false
        (some [NavData.mk (str "Q") (str "q.html") false none])).childData = none ↔
      qsaNavItems 2 c3Elem = []) ∧
    (∀ cs, (NavData.mk (str "P") (str "p.html") false
        (some [NavData.mk (str "Q") (str "q.html") false none])).childData = some cs →
      mapOpt (fun c => recursiveDepthSearch c 3) (qsaNavItems 2 c3Elem) = some cs) ∧
    (∀ x ∈ qsaNavItems 2 c3Elem, x.depthAttr = some 2) :=
  recursiveDepthSearch_children_characterization c3Elem 2
    (NavData.mk (str "P") (str "p.html") false
      (some [NavData.mk (str "Q") (str "q.html") false none])) rfl

/-- C4 (counterexample): a run with a single batch still awaits one
inter-batch delay — the delay after the final batch that the claim says
is never issued. -/
theorem runBatches_delay_after_final_batch :
    (runBatches okFetchOne [str "a"] 1).delays = 1 ∧
    (chunks 1 [str "a"]).length = 1 := by
  refine ⟨rfl, rfl⟩

/-- C4 (amended): the scheduler pauses for the inter-batch delay after
every batch, including the final one: the number of delays equals the
number of batches. -/
theorem runBatches_delays_eq_batches (fetchOne : Str → Except Str Article)
    (tasks : List Str) (B : Nat) :
    (runBatches fetchOne tasks B).delays = (chunks B tasks).length := by
  rw [runBatches_spec]

/-- C5 (counterexample): two successful fetches sharing one title
collapse into a single title-keyed entry, so the index can hold fewer
entries than there were successes. -/
theorem buildAllArticleData_title_collision :
    (buildAllArticleData (dupTitleResults.filterMap Except.toOption)).length = 1 ∧
    (dupTitleResults.filterMap Except.toOption).length = 2 := by
  refine ⟨rfl, rfl⟩

/-- C5 (amended): when the successful results carry pairwise distinct
titles, the title-keyed index holds exactly one entry per success. -/
theorem buildAllArticleData_entries_eq_successes (results : List (Except Str Article))
    (hT : ((results.filterMap Except.toOption).map Article.title).Nodup) :
    (buildAllArticleData (results.filterMap Except.toOption)).length =
      (results.filterMap Except.toOption).length :=
  buildAllArticleData_length_nodup _ hT

/-- Witness for C5 (amended) on results with distinct titles. -/
theorem buildAllArticleData_entries_eq_successes_witness :
    ((distinctTitleResults.filterMap Except.toOption).map Article.title).Nodup ∧
    (buildAllArticleData (distinctTitleResults.filterMap Except.toOption)).length =
      (distinctTitleResults.filterMap Except.toOption).length :=
  ⟨by decide, buildAllArticleData_entries_eq_successes distinctTitleResults (by decide)⟩

/-- C6: over any run with positive batch size, every settled task —
successful or failed — increments the counter exactly once and the
progress callback receives the successive counter values 1, 2, …, N, so
the counter ends at exactly N. -/
theorem runBatches_progress_accounting (fetchOne : Str → Except Str Article)
    (tasks : List Str) (B : Nat) (hB : 0 < B) :
    (runBatches fetchOne tasks B).completedCount = tasks.length ∧
    (runBatches fetchOne tasks B).progressCalls = List.range' 1 tasks.length := by
  rw [runBatches_spec, chunks_flatten hB]
  exact ⟨rfl, rfl⟩

/-- Witness for C6 on a three-task run in which one task fails. -/
theorem runBatches_progress_accounting_witness :
    0 < 2 ∧
    (runBatches mixedFetchOne [str "x", str "bad", str "y"] 2).completedCount =
      [str "x", str "bad", str "y"].length ∧
    (runBatches mixedFetchOne [str "x", str "bad", str "y"] 2).progressCalls =
      List.range' 1 [str "x", str "bad", str "y"].length :=
  ⟨by decide, runBatches_progress_accounting mixedFetchOne [str "x", str "bad", str "y"] 2
    (by decide)⟩

/-- C7: with the real per-document fetcher (whose transport errors and
missing article containers all surface as `.error`), the run is a total
function — no recoverable error escapes — and each task's outcome depends
only on its own fetch: the collected articles are exactly the per-task
successes in task order, and the counter still reaches N. A failing task
therefore never aborts its siblings, later batches, or the run. -/
theorem runBatches_failure_isolated (fetchHtml : Str → Except Str Elem)
    (tasks : List Str) (B : Nat) (hB : 0 < B) :
    (runBatches (getSpringBootDocsArticleData fetchHtml) tasks B).articleDataArr =
      tasks.filterMap (fun u => (getSpringBootDocsArticleData fetchHtml u).toOption) ∧
    (runBatches (getSpringBootDocsArticleData fetchHtml) tasks B).completedCount =
      tasks.length := by
  rw [runBatches_spec, chunks_flatten hB]
  exact ⟨rfl, rfl⟩

/-- Witness for C7 on a run whose second task's fetch fails. -/
theorem runBatches_failure_isolated_witness :
    0 < 1 ∧
    (runBatches (getSpringBootDocsArticleData articleFetchHtml) [str "ok", str "bad"] 1).articleDataArr =
      [str "ok", str "bad"].filterMap
        (fun u => (getSpringBootDocsArticleData articleFetchHtml u).toOption) ∧
    (runBatches (getSpringBootDocsArticleData articleFetchHtml) [str "ok", str "bad"] 1).completedCount =
      [str "ok", str "bad"].length :=
  ⟨by decide, runBatches_failure_isolated articleFetchHtml [str "ok", str "bad"] 1 (by decide)⟩

/-- C8: for a positive batch size the slicing loop yields exactly
⌈N / B⌉ consecutive batches whose concatenation is the task list, every
batch holds at most B tasks, and every batch except possibly the last
holds exactly B. -/
theorem chunks_partition (tasks : List Str) (B : Nat) (hB : 0 < B) :
    (chunks B tasks).length = (tasks.length + B - 1) / B ∧
    (chunks B tasks).flatten = tasks ∧
    (∀ c ∈ chunks B tasks, c.length ≤ B) ∧
    (∀ i, i + 1 < (chunks B tasks).length → ((chunks B tasks).getD i []).length = B) :=
  ⟨chunks_length hB tasks, chunks_flatten hB tasks,
    chunks_mem_length hB tasks, chunks_getD hB tasks⟩

/-- Witness for C8 on the spec's example: 7 tasks with batch size 2. -/
theorem chunks_partition_witness :
    0 < 2 ∧
    ((chunks 2 tasks7).length = (tasks7.length + 2 - 1) / 2 ∧
      (chunks 2 tasks7).flatten = tasks7 ∧
      (∀ c ∈ chunks 2 tasks7, c.length ≤ 2) ∧
      (∀ i, i + 1 < (chunks 2 tasks7).length → ((chunks 2 tasks7).getD i []).length = 2)) :=
  ⟨by decide, chunks_partition tasks7 2 (by decide)⟩

/-- C9 (counterexample): the extracted tree is not rooted at a synthetic
node with empty title and href — the root is populated from the first
anchor found under `nav.nav-menu` (here the anchor of item A), so after
extraction and resolution the root's title is "A", not empty. -/
theorem navData_root_not_synthetic :
    (getSpringBootDocsNavData sampleNavFetch (str "base")).map NavData.title =
      .ok (str "A") ∧
    str "A" ≠ ([] : Str) := by
  refine ⟨rfl, by decide⟩

/-- C9 (amended): the root of every extracted tree carries the title,
href, and external marker of the container's first anchor (the synthetic
`{ childData: [] }` object passed by the caller is discarded). -/
theorem recursiveDepthSearch_root_from_first_anchor (e : Elem) (d : Nat) (n : NavData)
    (h : recursiveDepthSearch e d = some n) :
    ∃ a, querySelectorD isAnchorTag e = some a ∧
      n.title = textContent a ∧ n.href = a.href ∧
      n.external = a.classes.contains (str "link-external") := by
  rw [recursiveDepthSearch_eq] at h
  split at h
  · simp at h
  · rename_i a ha
    refine ⟨a, ha, ?_⟩
    by_cases hemp : (qsaNavItems d e).isEmpty
    · rw [if_pos hemp] at h
      obtain rfl : NavData.mk (textContent a) a.href
          (a.classes.contains (str "link-external")) none = n := Option.some.inj h
      exact ⟨rfl, rfl, rfl⟩
    · rw [if_neg hemp] at h
      cases hm : mapOpt (fun c => recursiveDepthSearch c (d + 1)) (qsaNavItems d e) with
      | none => rw [hm] at h; simp at h
      | some cs0 =>
        rw [hm] at h
        obtain rfl : NavData.mk (textContent a) a.href
            (a.classes.contains (str "link-external")) (some cs0) = n := Option.some.inj h
        exact ⟨rfl, rfl, rfl⟩

/-- Witness for C9 (amended) at the single-anchor menu. -/
theorem recursiveDepthSearch_root_from_first_anchor_witness :
    ∃ a, querySelectorD isAnchorTag miniMenu = some a ∧
      (NavData.mk (str "Home") (str "/home") false none).title = textContent a ∧
      (NavData.mk (str "Home") (str "/home") false none).href = a.href ∧
      (NavData.mk (str "Home") (str "/home") false none).external =
        a.classes.contains (str "link-external") :=
  recursiveDepthSearch_root_from_first_anchor miniMenu 1
    (NavData.mk (str "Home") (str "/home") false none) rfl

/-- C10: the extraction strips one trailing slash from the base URL
before fetching or resolving, so a base URL with and without a final
slash yields identical resolved navigation trees. -/
theorem navData_trailing_slash_invariant (fetchHtml : Str → Except Str Elem)
    (baseURL : Str) (h : baseURL.getLast? ≠ some '/') :
    getSpringBootDocsNavData fetchHtml (baseURL ++ ['/']) =
      getSpringBootDocsNavData fetchHtml baseURL := by
  have h1 : (baseURL ++ ['/']).getLast? = some '/' := List.getLast?_concat baseURL
  have h2 : (baseURL ++ ['/']).dropLast = baseURL := List.dropLast_concat
  have h3 : (baseURL.getLast? == some '/') = false := beq_eq_false_iff_ne.mpr h
  simp only [getSpringBootDocsNavData, h1, h2, h3, beq_self_eq_true, if_true,
    Bool.false_eq_true, if_neg, not_false_eq_true, if_false]

/-- Witness for C10 at a concrete base URL and sample page. -/
theorem navData_trailing_slash_invariant_witness :
    (str "base").getLast? ≠ some '/' ∧
    getSpringBootDocsNavData sampleNavFetch (str "base" ++ ['/']) =
      getSpringBootDocsNavData sampleNavFetch (str "base") :=
  ⟨by decide, navData_trailing_slash_invariant sampleNavFetch (str "base") (by decide)⟩
